import Mathlib

/-!
# A verification development for the trace-analysis core (`TraceCollector.py`)

Shallow embedding of the analysis engine: failure detection and
classification (`FailureAnalyzer`), chronological propagation mapping
(`FailurePropagationMonitor`), and before/after patch comparison
(`PatchEvaluator`).

Modelling conventions:
* A Python log dict becomes `LogEntry` with three `Option String` fields;
  `none` models a missing key.  `d.get(k, default)` becomes
  `Option.getD`; a direct subscript `d[k]` becomes a bind in the
  `Option` monad, so a raised `KeyError` surfaces as a `none` result of
  the whole operation.
* Python substring test `pat in s` becomes `strContains s pat`.
* A Python dict that the source builds in insertion order becomes an
  association list grown by `addToGroup` / appending; a dict that the
  source keys by an unordered `set` union (whose iteration order Python
  leaves unspecified) becomes its lookup function
  `agent ↦ Option value`.
* Python `set[str]` values become `Finset String` (the source
  materialises them back to lists in unspecified order).
* `sorted(logs, key=...)` (a stable sort) becomes the stable
  `List.insertionSort` on the same key: a stable sort by a total preorder
  is extensionally unique, so this is the same function.
-/

structure LogEntry where
  agent_id : Option String
  timestamp : Option String
  message : Option String
deriving DecidableEq, Repr

/-- Python's `pat in s` substring test, on the character lists. -/
def strContains (s pat : String) : Bool :=
  decide (pat.data <:+: s.data)

/-- Python's `str.lower()`, character by character. -/
def strLower (s : String) : String :=
  String.mk (s.data.map Char.toLower)

/-- Python's `str.strip()`: drop surrounding whitespace. -/
def strTrim (s : String) : String :=
  String.mk (((s.data.dropWhile Char.isWhitespace).reverse.dropWhile Char.isWhitespace).reverse)

/-- Python's `<=` on strings: lexicographic comparison of the code-point
sequences. -/
def lexLe : List Char → List Char → Bool
  | [], _ => true
  | _ :: _, [] => false
  | a :: as, b :: bs =>
      if a.toNat < b.toNat then true
      else if b.toNat < a.toNat then false
      else lexLe as bs

/-- The six detector keywords of `FailureAnalyzer._group_failures_by_agent`
(line 73), also used by `show_failure_introducers` (line 134) and
`extract_failures` (line 155). -/
def detectorKeywords : List String :=
  ["fail", "error", "exception", "crash", "timeout", "hallucination"]

/-- `is_failure`: the six-keyword failure detector — true iff the
lowercased message contains one of `detectorKeywords`. -/
def is_failure (msg : String) : Bool :=
  detectorKeywords.any (fun w => strContains (strLower msg) w)

/-- The four keywords used by `map_failure_propagation` (line 105),
`count_failures` inside `evaluate_patch_effectiveness` (line 193) and the
failure gate of `advanced_evaluation_report` (lines 281 and 290). -/
def propagationKeywords : List String :=
  ["fail", "error", "exception", "crash"]

/-- The four-keyword gate: true iff the lowercased message contains one of
`propagationKeywords`. -/
def is_failure4 (msg : String) : Bool :=
  propagationKeywords.any (fun w => strContains (strLower msg) w)

/-- `FailureCategory`: the five categories returned by
`FailureAnalyzer._categorize_failure`; the constructors stand for the
literal strings `'Syntax / compile error'`, `'Logic / test failure'`,
`'Timeout'`, `'LLM hallucination'`, `'Other'`. -/
inductive FailureCategory
  | SyntaxOrCompileError
  | LogicOrTestFailure
  | Timeout
  | LlmHallucination
  | Other
deriving DecidableEq, Repr

def syntaxKeywords : List String :=
  ["syntax error", "compile error", "compilation failed", "unexpected indent", "invalid syntax"]

def logicKeywords : List String :=
  ["assertion failed", "test failed", "logic error", "incorrect result", "wrong output",
   "failed test", "did not pass", "mismatch"]

def hallucinationKeywords : List String :=
  ["hallucination", "nonsensical", "made up", "fabricated", "not in context", "irrelevant",
   "llm error", "llm mistake"]

/-- `FailureAnalyzer._categorize_failure` (lines 54-65): keyword groups
tried in priority order on the lowercased message, first match wins. -/
def categorize (msg : String) : FailureCategory :=
  let m := strLower msg
  if syntaxKeywords.any (fun w => strContains m w) then .SyntaxOrCompileError
  else if logicKeywords.any (fun w => strContains m w) then .LogicOrTestFailure
  else if strContains m "timeout" || strContains m "timed out" then .Timeout
  else if hallucinationKeywords.any (fun w => strContains m w) then .LlmHallucination
  else .Other

/-- Insertion-ordered grouping dict: append `v` to the bucket of `k`,
creating the bucket at the end on first appearance of `k` (models
`failures[agent_id].append(...)` on a Python dict). -/
def addToGroup {α : Type} (groups : List (String × List α)) (k : String) (v : α) :
    List (String × List α) :=
  match groups with
  | [] => [(k, [v])]
  | (k', vs) :: rest =>
      if k' = k then (k', vs ++ [v]) :: rest else (k', vs) :: addToGroup rest k v

/-- One iteration of the loop of `FailureAnalyzer._group_failures_by_agent`
(lines 69-80): keep the entry if its message passes the six-keyword
detector, paired with its category, under `agent_id`
(default `"unknown"`). -/
def groupStep (acc : List (String × List (LogEntry × FailureCategory))) (log : LogEntry) :
    List (String × List (LogEntry × FailureCategory)) :=
  let msg := log.message.getD ""
  if is_failure msg then
    addToGroup acc (log.agent_id.getD "unknown") (log, categorize msg)
  else acc

/-- `FailureAnalyzer._group_failures_by_agent` (lines 67-81): keys in
first-appearance order, each bucket in input order. -/
def group_failures_by_agent (logs : List LogEntry) :
    List (String × List (LogEntry × FailureCategory)) :=
  logs.foldl groupStep []

/-- The sort key of `FailurePropagationMonitor.__init__` (line 94):
the raw timestamp string, `''` when missing. -/
def tsKey (e : LogEntry) : String := e.timestamp.getD ""

/-- The sort relation of line 94: Python string `<=` on the raw timestamp
keys. -/
def tsLe (a b : LogEntry) : Prop :=
  lexLe (tsKey a).data (tsKey b).data = true

instance : DecidableRel tsLe := fun _ _ =>
  inferInstanceAs (Decidable (_ = _))

/-- `sorted(logs, key=lambda x: x.get('timestamp', ''))` (line 94): Python
`sorted` is a stable sort by the key, and a stable sort by a total
preorder is extensionally unique, so the (stable) insertion sort by the
same key is the same function. -/
def sortLogs (logs : List LogEntry) : List LogEntry :=
  logs.insertionSort tsLe

structure PropagationEdge where
  source_agent : String
  target_agent : String
  timestamp : String
  message : String
deriving DecidableEq, Repr

/-- The loop body of `map_failure_propagation` (lines 101-116), with the
state variable `last_failure` made explicit.  Subscripts `log['agent_id']`,
`log['timestamp']`, `log['message']` are `Option` binds: a missing key
(Python `KeyError`) makes the whole traversal return `none`.  The Python
guard `if last_failure:` is truthiness of a dict; every recorded
`last_failure` passed the keyword gate, hence is a non-empty dict, so the
guard is exactly `isSome` here. -/
def mapPropagationAux : Option LogEntry → List LogEntry → Option (List PropagationEdge)
  | _, [] => some []
  | last, log :: rest =>
    if is_failure4 (log.message.getD "") then
      match last with
      | none => mapPropagationAux (some log) rest
      | some lf => do
          let la ← log.agent_id
          let lfa ← lf.agent_id
          if la ≠ lfa then do
            let ts ← log.timestamp
            let m ← log.message
            let tail ← mapPropagationAux (some log) rest
            pure (⟨lfa, la, ts, m⟩ :: tail)
          else
            mapPropagationAux (some log) rest
    else
      mapPropagationAux last rest

/-- `FailurePropagationMonitor.map_failure_propagation` (lines 96-116) on a
batch of raw entries: stable-sort by raw timestamp string (done by the
constructor, line 94), then the `last_failure` state machine. -/
def map_failure_propagation (logs : List LogEntry) : Option (List PropagationEdge) :=
  mapPropagationAux none (sortLogs logs)

/-- The gate and key used by `show_failure_introducers` (lines 133-134):
the surrounding-whitespace-trimmed message. -/
def introKey (e : LogEntry) : String := strTrim (e.message.getD "")

/-- The loop of `show_failure_introducers` (lines 131-136) with the
insertion-ordered dict `seen` made explicit as an association list.
`log['agent_id']` (line 136) is an `Option` bind, reached only for a
gate-passing entry whose trimmed message is new. -/
def introducersAux (seen : List (String × String)) :
    List LogEntry → Option (List (String × String))
  | [] => some seen
  | log :: rest =>
    let msg := introKey log
    if is_failure msg then
      if seen.any (fun p => p.1 = msg) then introducersAux seen rest
      else do
        let a ← log.agent_id
        introducersAux (seen ++ [(msg, a)]) rest
    else
      introducersAux seen rest

/-- `FailurePropagationMonitor.show_failure_introducers` (lines 127-139) on
a batch of raw entries: stable-sort by timestamp (constructor, line 94),
then record, for each distinct trimmed failure message, the agent of its
first occurrence, in first-seen order. -/
def show_failure_introducers (logs : List LogEntry) : Option (List (String × String)) :=
  introducersAux [] (sortLogs logs)

/-- `extract_failures` (lines 150-157) restricted to one agent: the trimmed
messages of that agent's detector-positive entries, in input order (the
`defaultdict(list)` maps every other agent to `[]`). -/
def extract_failures (logs : List LogEntry) (agent : String) : List String :=
  logs.filterMap (fun log =>
    let msg := strTrim (log.message.getD "")
    if is_failure msg ∧ log.agent_id.getD "unknown" = agent then some msg else none)

/-- The key set of the `defaultdict` built by `extract_failures`: agents
owning at least one detector-positive entry. -/
def failureAgents (logs : List LogEntry) : Finset String :=
  (logs.filterMap (fun log =>
    if is_failure (strTrim (log.message.getD "")) then some (log.agent_id.getD "unknown")
    else none)).toFinset

structure PatchAgentResult where
  fully_fixed : Finset String
  partially_fixed : Finset String
  newly_introduced : Finset String
deriving DecidableEq

/-- `FailurePropagationMonitor.patch_propagation_analysis` (lines 141-173)
as the lookup function of the returned dict: defined exactly on the union
of agents seen in either collection (the Python dict is keyed by an
unordered set union), with the three set differences/intersections of the
agent's before/after trimmed-message sets (the source materialises each
set as a list in unspecified order). -/
def patch_propagation_analysis (logs_before logs_after : List LogEntry) (agent : String) :
    Option PatchAgentResult :=
  if agent ∈ failureAgents logs_before ∪ failureAgents logs_after then
    let bs := (extract_failures logs_before agent).toFinset
    let afs := (extract_failures logs_after agent).toFinset
    some ⟨bs \ afs, bs ∩ afs, afs \ bs⟩
  else none

/-- `count_failures` (lines 189-195) restricted to one agent: the number of
entries of that agent whose raw message passes the four-keyword gate. -/
def count_failures (logs : List LogEntry) (agent : String) : Nat :=
  (logs.filter (fun log =>
    log.agent_id.getD "unknown" = agent ∧ is_failure4 (log.message.getD ""))).length

/-- The key set of the dict built by `count_failures`: agents with at least
one gate-passing entry. -/
def countedAgents (logs : List LogEntry) : Finset String :=
  (logs.filterMap (fun log =>
    if is_failure4 (log.message.getD "") then some (log.agent_id.getD "unknown")
    else none)).toFinset

/-- `PatchEvaluator.evaluate_patch_effectiveness` (lines 184-216) as the
lookup function of the returned dict: defined exactly on the union of
agents counted in either collection, with the six-branch verdict string of
lines 204-215. -/
def evaluate_patch_effectiveness (logs_before logs_after : List LogEntry) (agent : String) :
    Option String :=
  if agent ∈ countedAgents logs_before ∪ countedAgents logs_after then
    let b := count_failures logs_before agent
    let a := count_failures logs_after agent
    some (if b = 0 ∧ a = 0 then
        "No failures before or after patch."
      else if b > 0 ∧ a = 0 then
        "All failures resolved (before: " ++ toString b ++ ", after: 0)."
      else if b = 0 ∧ a > 0 then
        "New failures introduced (before: 0, after: " ++ toString a ++ ")."
      else if a < b then
        "Failures reduced (before: " ++ toString b ++ ", after: " ++ toString a ++ ")."
      else if a = b then
        "No change in failures (before: " ++ toString b ++ ", after: " ++ toString a ++ ")."
      else
        "Failures increased (before: " ++ toString b ++ ", after: " ++ toString a ++ ").")
  else none

/-- The secondary taxonomy `classify_failure_type` (lines 229-250):
priority-ordered first substring match on the lowercased message. -/
def classify_failure_type (msg : String) : String :=
  let m := strLower msg
  if strContains m "timeout" then "timeout"
  else if strContains m "connection" then "connection"
  else if strContains m "resource" then "resource"
  else if strContains m "memory" then "memory"
  else if strContains m "disk" then "disk"
  else if strContains m "exception" then "exception"
  else if strContains m "crash" then "crash"
  else if strContains m "fail" then "fail"
  else if strContains m "error" then "error"
  else "other"

/-- Proleptic-Gregorian leap year, as `datetime` uses. -/
def isLeap (y : Nat) : Bool :=
  (y % 4 = 0 && y % 100 ≠ 0) || y % 400 = 0

def daysInMonth (y m : Nat) : Nat :=
  if m = 2 then (if isLeap y then 29 else 28)
  else if m = 4 ∨ m = 6 ∨ m = 9 ∨ m = 11 then 30
  else 31

/-- Days in all years before year `y` (year 1 is the first), as in
`datetime.date.toordinal`. -/
def daysBeforeYear (y : Nat) : Nat :=
  (y - 1) * 365 + (y - 1) / 4 - (y - 1) / 100 + (y - 1) / 400

def daysBeforeMonth (y m : Nat) : Nat :=
  (List.range (m - 1)).foldl (fun acc i => acc + daysInMonth y (i + 1)) 0

/-- Ordinal day number of the date `y-m-d` (1-based, like
`datetime.date.toordinal`). -/
def toOrdinal (y m d : Nat) : Nat :=
  daysBeforeYear y + daysBeforeMonth y m + d

def digitVal (c : Char) : Option Nat :=
  if c.isDigit then some (c.toNat - 48) else none

def twoDigits (a b : Char) : Option Nat := do
  let x ← digitVal a
  let y ← digitVal b
  pure (x * 10 + y)

/-- Parse `HH`, `HH:MM` or `HH:MM:SS` into seconds past midnight,
validating the ranges as `datetime.time` does. -/
def parseTimePart : List Char → Option Nat
  | [h1, h2] => do
      let h ← twoDigits h1 h2
      if h ≤ 23 then pure (h * 3600) else none
  | [h1, h2, ':', m1, m2] => do
      let h ← twoDigits h1 h2
      let m ← twoDigits m1 m2
      if h ≤ 23 ∧ m ≤ 59 then pure (h * 3600 + m * 60) else none
  | [h1, h2, ':', m1, m2, ':', s1, s2] => do
      let h ← twoDigits h1 h2
      let m ← twoDigits m1 m2
      let s ← twoDigits s1 s2
      if h ≤ 23 ∧ m ≤ 59 ∧ s ≤ 59 then pure (h * 3600 + m * 60 + s) else none
  | _ => none

/-- `parse_time` (lines 252-256): `datetime.fromisoformat` under a
`try/except` returning `None` on failure, modelled on the
`YYYY-MM-DD[*HH[:MM[:SS]]]` core of the accepted grammar (fractional
seconds and timezone offsets are out of the modelled subset).  The result
is the instant in seconds: `toOrdinal * 86400 +` seconds past midnight,
which is order- and difference-faithful.  Any string outside the grammar
or with an out-of-range field parses to `none`. -/
def parse_time (ts : String) : Option Nat :=
  match ts.data with
  | y1 :: y2 :: y3 :: y4 :: '-' :: mo1 :: mo2 :: '-' :: d1 :: d2 :: rest => do
      let yh ← twoDigits y1 y2
      let yl ← twoDigits y3 y4
      let y := yh * 100 + yl
      let mo ← twoDigits mo1 mo2
      let d ← twoDigits d1 d2
      if 1 ≤ y ∧ 1 ≤ mo ∧ mo ≤ 12 ∧ 1 ≤ d ∧ d ≤ daysInMonth y mo then
        match rest with
        | [] => pure (toOrdinal y mo d * 86400)
        | _sep :: timecs => do
            let t ← parseTimePart timecs
            pure (toOrdinal y mo d * 86400 + t)
      else none
  | _ => none

/-- Accumulator of the `before_logs` loop of `advanced_evaluation_report`
(lines 279-287): type counter (insertion-ordered), distinct raw messages,
running maximum parsed failure time. -/
structure BeforeAcc where
  types : List (String × Nat)
  msgs : Finset String
  lastFail : Option Nat

/-- Counter increment on an insertion-ordered dict (`defaultdict(int)`). -/
def bumpCount (m : List (String × Nat)) (k : String) : List (String × Nat) :=
  match m with
  | [] => [(k, 1)]
  | (k', n) :: rest => if k' = k then (k', n + 1) :: rest else (k', n) :: bumpCount rest k

/-- One iteration of the `before_logs` loop of
`advanced_evaluation_report` (lines 279-287): four-keyword gate on the raw
message; a gate-passing entry bumps its type, joins the distinct-message
set, and advances `last_failure_time` when its timestamp parses and
strictly exceeds the current maximum. -/
def beforeStep (acc : BeforeAcc) (log : LogEntry) : BeforeAcc :=
  let msg := log.message.getD ""
  if is_failure4 msg then
    { types := bumpCount acc.types (classify_failure_type msg)
      msgs := insert msg acc.msgs
      lastFail :=
        match parse_time (log.timestamp.getD ""), acc.lastFail with
        | none, lf => lf
        | some tv, none => some tv
        | some tv, some lf => if tv > lf then some tv else some lf }
  else acc

/-- The `before_logs` loop of `advanced_evaluation_report`
(lines 279-287). -/
def beforeFold (logs : List LogEntry) : BeforeAcc :=
  logs.foldl beforeStep ⟨[], ∅, none⟩

/-- Accumulator of the `after_logs` loop (lines 288-298). -/
structure AfterAcc where
  types : List (String × Nat)
  msgs : Finset String
  firstSuccess : Option Nat

/-- One iteration of the `after_logs` loop of `advanced_evaluation_report`
(lines 288-298): a gate-passing entry bumps its type and joins the
distinct-message set; a gate-failing entry is a success candidate and
advances `first_success_time` when its timestamp parses,
`last_failure_time` exists, it is below the current minimum, and strictly
follows `last_failure_time`. -/
def afterStep (lastFail : Option Nat) (acc : AfterAcc) (log : LogEntry) : AfterAcc :=
  let msg := log.message.getD ""
  if is_failure4 msg then
    { acc with
      types := bumpCount acc.types (classify_failure_type msg)
      msgs := insert msg acc.msgs }
  else
    match parse_time (log.timestamp.getD ""), lastFail with
    | some tv, some lf =>
        if (match acc.firstSuccess with
            | none => true
            | some fs => decide (tv < fs)) && decide (tv > lf) then
          { acc with firstSuccess := some tv }
        else acc
    | _, _ => acc

/-- The `after_logs` loop of `advanced_evaluation_report`
(lines 288-298). -/
def afterFold (logs : List LogEntry) (lastFail : Option Nat) : AfterAcc :=
  logs.foldl (afterStep lastFail) ⟨[], ∅, none⟩

structure AdvancedAgentReport where
  failure_types_before : List (String × Nat)
  failure_types_after : List (String × Nat)
  unique_failure_messages_before : Nat
  unique_failure_messages_after : Nat
  time_to_recovery : Option Nat
deriving DecidableEq, Repr

/-- The per-agent body of `advanced_evaluation_report` (lines 269-310):
`group_by_agent` buckets are the order-preserving filters on the
`'unknown'`-defaulted agent id; `time_to_recovery` is the difference of
the two fold results when both exist (the source renders the `timedelta`
as a string; the duration in seconds is kept here). -/
def advanced_report_for (logs_before logs_after : List LogEntry) (agent : String) :
    AdvancedAgentReport :=
  let bl := logs_before.filter (fun e => e.agent_id.getD "unknown" = agent)
  let al := logs_after.filter (fun e => e.agent_id.getD "unknown" = agent)
  let b := beforeFold bl
  let a := afterFold al b.lastFail
  { failure_types_before := b.types
    failure_types_after := a.types
    unique_failure_messages_before := b.msgs.card
    unique_failure_messages_after := a.msgs.card
    time_to_recovery :=
      match b.lastFail, a.firstSuccess with
      | some lf, some fs => some (fs - lf)
      | _, _ => none }

/-- The agents grouped from a batch by `group_by_agent` (lines 259-263):
every entry contributes its (defaulted) agent id, no gate. -/
def groupedAgents (logs : List LogEntry) : Finset String :=
  (logs.map (fun e => e.agent_id.getD "unknown")).toFinset

/-- `PatchEvaluator.advanced_evaluation_report` (lines 218-311) as the
lookup function of the returned dict: defined exactly on the union of
agents appearing in either collection. -/
def advanced_evaluation_report (logs_before logs_after : List LogEntry) (agent : String) :
    Option AdvancedAgentReport :=
  if agent ∈ groupedAgents logs_before ∪ groupedAgents logs_after then
    some (advanced_report_for logs_before logs_after agent)
  else none

/-- The entry gate of `map_failure_propagation` (line 105): the
four-keyword test on the raw (defaulted) message. -/
def propGate (e : LogEntry) : Bool := is_failure4 (e.message.getD "")

/-- Specification-side characterisation of the propagation state machine
(spec §4.4): one edge per adjacent pair of gate-passing entries whose
agents differ, in the order of the gate-filtered sorted stream.  Field
subscripts are `Option` binds exactly as in `mapPropagationAux`. -/
def adjacentFailureEdges : List LogEntry → Option (List PropagationEdge)
  | [] => some []
  | [_] => some []
  | a :: b :: rest => do
      let ba ← b.agent_id
      let aa ← a.agent_id
      if ba ≠ aa then do
        let ts ← b.timestamp
        let m ← b.message
        let tail ← adjacentFailureEdges (b :: rest)
        pure (⟨aa, ba, ts, m⟩ :: tail)
      else
        adjacentFailureEdges (b :: rest)

/-- Specification-side "first-seen order of distinct messages"
(spec §4.4): deduplicate keeping the first occurrence, preserving order. -/
def firstSeen (l : List String) : List String :=
  l.foldl (fun acc x => if x ∈ acc then acc else acc ++ [x]) []

/-- The gate of `show_failure_introducers` (line 134) on the trimmed
message. -/
def introGate (e : LogEntry) : Bool := is_failure (introKey e)

/-- The gate-filtered, timestamp-sorted stream the introducer map walks. -/
def introEntries (logs : List LogEntry) : List LogEntry :=
  (sortLogs logs).filter introGate

/-- Per-agent filter used by `group_by_agent` (lines 259-263). -/
def agentLogs (logs : List LogEntry) (agent : String) : List LogEntry :=
  logs.filter (fun e => e.agent_id.getD "unknown" = agent)

/-- Specification side of the recovery computation: the parsed timestamps
of the gate-passing (failure) entries; unparsable timestamps are absent. -/
def failTimes (logs : List LogEntry) : List Nat :=
  logs.filterMap (fun e =>
    if is_failure4 (e.message.getD "") then parse_time (e.timestamp.getD "") else none)

/-- Specification side of the recovery computation: the parsed timestamps
of the gate-failing (success) entries; unparsable timestamps are absent. -/
def successTimes (logs : List LogEntry) : List Nat :=
  logs.filterMap (fun e =>
    if is_failure4 (e.message.getD "") then none else parse_time (e.timestamp.getD ""))

/-- Specification-side verdict table (spec §4.5): six branches on the two
counts, evaluated in the claimed priority, each carrying the literal
counts. -/
def verdictFor (b a : Nat) : String :=
  if b = 0 ∧ a = 0 then
    "No failures before or after patch."
  else if b > 0 ∧ a = 0 then
    "All failures resolved (before: " ++ toString b ++ ", after: 0)."
  else if b = 0 ∧ a > 0 then
    "New failures introduced (before: 0, after: " ++ toString a ++ ")."
  else if a < b then
    "Failures reduced (before: " ++ toString b ++ ", after: " ++ toString a ++ ")."
  else if a = b then
    "No change in failures (before: " ++ toString b ++ ", after: " ++ toString a ++ ")."
  else
    "Failures increased (before: " ++ toString b ++ ", after: " ++ toString a ++ ")."

/-- Sample entries used by concrete witnesses and counterexamples. -/
def eErrA : LogEntry := ⟨some "a", some "t1", some "error"⟩

def eErrA2 : LogEntry := ⟨some "a", some "t2", some "error"⟩

def eCrashB : LogEntry := ⟨some "b", some "t2", some "crash!"⟩

def eTimeoutA : LogEntry := ⟨some "a", some "t1", some "timeout"⟩

def eTimeoutB : LogEntry := ⟨some "b", some "t2", some "timeout"⟩

def eNoAgent1 : LogEntry := ⟨none, some "t1", some "error"⟩

def eNoAgent2 : LogEntry := ⟨none, some "t2", some "error2"⟩

def eIsoFail : LogEntry := ⟨some "a", some "2024-01-01T00:00:00", some "error"⟩

def eIsoTimeout : LogEntry := ⟨some "a", some "2024-01-01T00:05:00", some "timeout"⟩

def eIsoOk : LogEntry := ⟨some "a", some "2024-01-01T00:05:00", some "ok"⟩

def eIntroA : LogEntry := ⟨some "A", some "t1", some "timeout"⟩

def eIntroB : LogEntry := ⟨some "B", some "t2", some "timeout"⟩

theorem lexLe_refl : ∀ l : List Char, lexLe l l = true := by
  intro l
  induction l with
  | nil => rfl
  | cons a as ih => simp [lexLe, ih]

theorem lexLe_total : ∀ l₁ l₂ : List Char, lexLe l₁ l₂ = true ∨ lexLe l₂ l₁ = true := by
  intro l₁
  induction l₁ with
  | nil => intro l₂; left; rfl
  | cons a as ih =>
    intro l₂
    cases l₂ with
    | nil => right; rfl
    | cons b bs =>
      rcases Nat.lt_trichotomy a.toNat b.toNat with h | h | h
      · left; simp [lexLe, h]
      · rcases ih bs with h' | h' <;> [left; right] <;> simp [lexLe, h, h']
      · right; simp [lexLe, h]

theorem lexLe_trans :
    ∀ l₁ l₂ l₃ : List Char, lexLe l₁ l₂ = true → lexLe l₂ l₃ = true → lexLe l₁ l₃ = true := by
  intro l₁
  induction l₁ with
  | nil => intro l₂ l₃ _ _; rfl
  | cons a as ih =>
    intro l₂ l₃ h12 h23
    cases l₂ with
    | nil => simp [lexLe] at h12
    | cons b bs =>
      cases l₃ with
      | nil => simp [lexLe] at h23
      | cons c cs =>
        simp only [lexLe] at h12 h23 ⊢
        split_ifs at h12 h23 ⊢ with hab hba hbc hcb hac hca
        all_goals first
        | rfl
        | omega
        | (exact ih bs cs h12 h23)

theorem tsLe_isTrans : IsTrans LogEntry tsLe :=
  ⟨fun _ _ _ hab hbc => lexLe_trans _ _ _ hab hbc⟩

theorem tsLe_isTotal : IsTotal LogEntry tsLe :=
  ⟨fun _ _ => lexLe_total _ _⟩

theorem addToGroup_forall {α : Type} {R : α → Prop} {groups : List (String × List α)}
    (hg : ∀ p ∈ groups, ∀ q ∈ p.2, R q) {k : String} {v : α} (hv : R v) :
    ∀ p ∈ addToGroup groups k v, ∀ q ∈ p.2, R q := by
  induction groups with
  | nil =>
    intro p hp
    simp only [addToGroup, List.mem_singleton] at hp
    subst hp
    intro q hq
    simp only [List.mem_singleton] at hq
    subst hq
    exact hv
  | cons g gs ih =>
    obtain ⟨k', vs⟩ := g
    intro p hp
    simp only [addToGroup] at hp
    by_cases hk : k' = k
    · rw [if_pos hk] at hp
      rcases List.mem_cons.mp hp with h | h
      · subst h
        intro q hq
        rcases List.mem_append.mp hq with h | h
        · exact hg (k', vs) (List.mem_cons_self _ _) q h
        · simp only [List.mem_singleton] at h
          subst h
          exact hv
      · exact hg p (List.mem_cons_of_mem _ h)
    · rw [if_neg hk] at hp
      rcases List.mem_cons.mp hp with h | h
      · subst h
        exact hg _ (List.mem_cons_self _ _)
      · exact ih (fun p hp => hg p (List.mem_cons_of_mem _ hp)) p h

theorem groupFold_forall (logs : List LogEntry) :
    ∀ acc : List (String × List (LogEntry × FailureCategory)),
      (∀ p ∈ acc, ∀ q ∈ p.2, is_failure (q.1.message.getD "") = true) →
      ∀ p ∈ logs.foldl groupStep acc, ∀ q ∈ p.2, is_failure (q.1.message.getD "") = true := by
  induction logs with
  | nil => intro acc hacc; simpa using hacc
  | cons log rest ih =>
    intro acc hacc
    simp only [List.foldl_cons]
    apply ih
    by_cases hf : is_failure (log.message.getD "") = true
    · simp only [groupStep, hf, if_true]
      exact addToGroup_forall hacc hf
    · simpa [groupStep, hf] using hacc

/-- C2 (counterexample): the message `"mismatch"` is classified
`LogicOrTestFailure` (non-`Other`) by `categorize`, yet the six-keyword
detector returns `false` on it, refuting "if categorize assigns a category
other than Other, then the detector returns true on that same message". -/
theorem C2_counterexample :
    categorize "mismatch" = FailureCategory.LogicOrTestFailure ∧
    is_failure "mismatch" = false := by decide

/-- C2 (amended): the detector⊇classifier inclusion fails for raw messages
(see the counterexample), but it does hold for everything the grouping
pipeline classifies — every record `group_failures_by_agent` emits passed
the six-keyword detector before being categorized — and the converse part
of the claim stands: `"crash"` detects true yet classifies `Other`. -/
theorem C2_grouping_detector :
    (∀ logs : List LogEntry, ∀ p ∈ group_failures_by_agent logs, ∀ q ∈ p.2,
      is_failure (q.1.message.getD "") = true) ∧
    is_failure "crash" = true ∧ categorize "crash" = FailureCategory.Other := by
  refine ⟨fun logs => groupFold_forall logs [] (by simp), by decide, by decide⟩

/-- C2 witness: the single grouped record of a one-entry batch is
detector-positive. -/
theorem C2_grouping_detector_witness :
    is_failure (eErrA.message.getD "") = true :=
  C2_grouping_detector.1 [eErrA] ("a", [(eErrA, FailureCategory.Other)]) (by decide)
    (eErrA, FailureCategory.Other) (by decide)

/-- C6: `categorize` evaluates its keyword groups in strict priority order
(syntax/compile, then logic/test, then timeout, then hallucination, else
`Other`), the first matching group winning; in particular
`"syntax error in assertion failed"`, which contains both a syntax keyword
and a logic keyword, classifies as `SyntaxOrCompileError`.  (Totality and
determinism hold by construction: `categorize` is a Lean function.) -/
theorem C6_categorize_priority :
    (∀ msg : String,
      (syntaxKeywords.any (fun w => strContains (strLower msg) w) = true →
        categorize msg = FailureCategory.SyntaxOrCompileError) ∧
      (syntaxKeywords.any (fun w => strContains (strLower msg) w) = false →
        logicKeywords.any (fun w => strContains (strLower msg) w) = true →
        categorize msg = FailureCategory.LogicOrTestFailure) ∧
      (syntaxKeywords.any (fun w => strContains (strLower msg) w) = false →
        logicKeywords.any (fun w => strContains (strLower msg) w) = false →
        (strContains (strLower msg) "timeout" || strContains (strLower msg) "timed out") = true →
        categorize msg = FailureCategory.Timeout) ∧
      (syntaxKeywords.any (fun w => strContains (strLower msg) w) = false →
        logicKeywords.any (fun w => strContains (strLower msg) w) = false →
        (strContains (strLower msg) "timeout" || strContains (strLower msg) "timed out") = false →
        hallucinationKeywords.any (fun w => strContains (strLower msg) w) = true →
        categorize msg = FailureCategory.LlmHallucination) ∧
      (syntaxKeywords.any (fun w => strContains (strLower msg) w) = false →
        logicKeywords.any (fun w => strContains (strLower msg) w) = false →
        (strContains (strLower msg) "timeout" || strContains (strLower msg) "timed out") = false →
        hallucinationKeywords.any (fun w => strContains (strLower msg) w) = false →
        categorize msg = FailureCategory.Other)) ∧
    categorize "syntax error in assertion failed" = FailureCategory.SyntaxOrCompileError ∧
    syntaxKeywords.any (fun w => strContains (strLower "syntax error in assertion failed") w)
      = true ∧
    logicKeywords.any (fun w => strContains (strLower "syntax error in assertion failed") w)
      = true := by
  refine ⟨fun msg => ⟨?_, ?_, ?_, ?_, ?_⟩, by decide, by decide, by decide⟩ <;>
    intros <;> simp only [categorize, *] <;> simp [*]

/-- C6 witness: the priority implications applied at a concrete message
containing both a syntax and a logic keyword. -/
theorem C6_categorize_priority_witness :
    categorize "syntax error here" = FailureCategory.SyntaxOrCompileError :=
  (C6_categorize_priority.1 "syntax error here").1 (by decide)

/-- C1 (counterexample): the six-keyword predicate is not the gate of the
propagation mapper or of the patch comparator's basic count.  `"timeout"`
is detector-positive and contributes to the grouping, yet an entry whose
message is `"timeout"` is invisible to `evaluate_patch_effectiveness`
(its agent is absent from the result) and to `map_failure_propagation`
(no edge is emitted for it). -/
theorem C1_counterexample :
    is_failure "timeout" = true ∧
    group_failures_by_agent [eTimeoutA] ≠ [] ∧
    evaluate_patch_effectiveness [eTimeoutA] [] "a" = none ∧
    map_failure_propagation [eErrA, eTimeoutB] = some [] := by decide

/-- C1 (amended): the six-substring predicate is the recall gate of the
detector-grouping step and of the introducer map, but the propagation
mapper and the patch comparator's basic count gate on only the four
substrings fail/error/exception/crash — a strictly smaller predicate. -/
theorem C1_gates :
    (∀ e : LogEntry,
      group_failures_by_agent [e] = [] ↔ is_failure (e.message.getD "") = false) ∧
    (∀ e : LogEntry,
      count_failures [e] (e.agent_id.getD "unknown") =
        if is_failure4 (e.message.getD "") then 1 else 0) ∧
    (∀ (last : Option LogEntry) (e : LogEntry) (rest : List LogEntry),
      is_failure4 (e.message.getD "") = false →
      mapPropagationAux last (e :: rest) = mapPropagationAux last rest) ∧
    (∀ (seen : List (String × String)) (e : LogEntry) (rest : List LogEntry),
      is_failure (introKey e) = false →
      introducersAux seen (e :: rest) = introducersAux seen rest) ∧
    (∀ msg : String, is_failure4 msg = true → is_failure msg = true) := by
  refine ⟨?_, ?_, ?_, ?_, ?_⟩
  · intro e
    by_cases hf : is_failure (e.message.getD "") = true <;>
      simp [group_failures_by_agent, groupStep, addToGroup, hf]
  · intro e
    by_cases hf : is_failure4 (e.message.getD "") = true <;>
      simp [count_failures, hf]
  · intro last e rest hf
    cases last <;> simp [mapPropagationAux, hf]
  · intro seen e rest hf
    simp [introducersAux, hf]
  · intro msg h
    simp only [is_failure4, propagationKeywords, is_failure, detectorKeywords,
      List.any_cons, List.any_nil, Bool.or_eq_true] at h ⊢
    tauto

/-- C1 witness: the gate subset relation at `"crash"`, and the mapper
skipping a detector-positive but gate-negative `"timeout"` entry. -/
theorem C1_gates_witness :
    is_failure "crash" = true ∧
    mapPropagationAux none [eTimeoutA] = mapPropagationAux none [] :=
  ⟨C1_gates.2.2.2.2 "crash" (by decide), C1_gates.2.2.1 none eTimeoutA [] (by decide)⟩

theorem count_failures_pos_iff (logs : List LogEntry) (agent : String) :
    0 < count_failures logs agent ↔
      ∃ log ∈ logs, log.agent_id.getD "unknown" = agent ∧
        is_failure4 (log.message.getD "") = true := by
  unfold count_failures
  rw [List.length_pos, Ne, List.filter_eq_nil_iff]
  push_neg
  simp

theorem mem_countedAgents (logs : List LogEntry) (agent : String) :
    agent ∈ countedAgents logs ↔ 0 < count_failures logs agent := by
  rw [count_failures_pos_iff]
  simp only [countedAgents, List.mem_toFinset, List.mem_filterMap]
  constructor
  · rintro ⟨log, hmem, hsome⟩
    by_cases hf : is_failure4 (log.message.getD "") = true
    · rw [if_pos hf] at hsome
      exact ⟨log, hmem, Option.some.inj hsome, hf⟩
    · rw [if_neg hf] at hsome
      exact absurd hsome (Option.noConfusion)
  · rintro ⟨log, hmem, hid, hf⟩
    exact ⟨log, hmem, by rw [if_pos hf, hid]⟩


theorem append3_ne {pre a b t : String} (h : ¬ pre.data <+: t.data) : pre ++ a ++ b ≠ t := by
  intro he
  exact h (he ▸ ⟨a.data ++ b.data, by simp⟩)

theorem append5_ne {pre a b c d t : String} (h : ¬ pre.data <+: t.data) :
    pre ++ a ++ b ++ c ++ d ≠ t := by
  intro he
  exact h (he ▸ ⟨a.data ++ b.data ++ c.data ++ d.data, by simp⟩)

/-- C10: the map returned by `evaluate_patch_effectiveness` contains
exactly the agents with at least one counted (four-keyword gate) failure
entry in the before or after collection, and consequently the
`(before==0, after==0)` verdict is never produced for any input. -/
theorem C10_result_agents :
    ∀ (lb la : List LogEntry) (agent : String),
      ((evaluate_patch_effectiveness lb la agent).isSome ↔
        0 < count_failures lb agent ∨ 0 < count_failures la agent) ∧
      (∀ s : String, evaluate_patch_effectiveness lb la agent = some s →
        s ≠ "No failures before or after patch.") := by
  intro lb la agent
  constructor
  · unfold evaluate_patch_effectiveness
    by_cases hmem : agent ∈ countedAgents lb ∪ countedAgents la
    · rw [if_pos hmem]
      rw [Finset.mem_union, mem_countedAgents, mem_countedAgents] at hmem
      simpa using hmem
    · rw [if_neg hmem]
      rw [Finset.mem_union, mem_countedAgents, mem_countedAgents] at hmem
      simpa using hmem
  · intro s hs
    unfold evaluate_patch_effectiveness at hs
    by_cases hmem : agent ∈ countedAgents lb ∪ countedAgents la
    · rw [if_pos hmem] at hs
      rw [Finset.mem_union, mem_countedAgents, mem_countedAgents] at hmem
      rw [Option.some.injEq] at hs
      subst hs
      split_ifs with h1 h2 h3 h4 h5 <;>
        first
        | omega
        | exact append3_ne (by decide)
        | exact append5_ne (by decide)
    · rw [if_neg hmem] at hs
      exact absurd hs (by simp)

/-- C10 witness: an agent with one counted before-failure is present, and
its verdict is not the `(0,0)` one. -/
theorem C10_result_agents_witness :
    "All failures resolved (before: 1, after: 0)." ≠ "No failures before or after patch." :=
  (C10_result_agents [eErrA] [] "a").2 "All failures resolved (before: 1, after: 0)." (by decide)

/-- C4 (counterexample): the counts in the verdicts are not counts of
detector-positive entries.  The batch `[eTimeoutA, eErrA2]` has two
detector-positive entries for agent `"a"`, yet the verdict reports
`before: 1`: the count gates on the four substrings only, so the
`"timeout"` entry is not counted. -/
theorem C4_counterexample :
    evaluate_patch_effectiveness [eTimeoutA, eErrA2] [] "a" =
      some "All failures resolved (before: 1, after: 0)." ∧
    (([eTimeoutA, eErrA2] : List LogEntry).filter
      (fun e => is_failure (e.message.getD ""))).length = 2 := by decide

/-- C4 (amended): with the counts taken over the four-substring gate
(`count_failures`), every verdict `evaluate_patch_effectiveness` returns
is the claimed six-branch priority table `verdictFor` applied to the two
counts, and exactly one of the six (mutually exclusive, exhaustive)
count-cases holds, each carrying the literal counts in its string. -/
theorem C4_verdicts :
    ∀ (lb la : List LogEntry) (agent : String) (s : String),
      evaluate_patch_effectiveness lb la agent = some s →
      s = verdictFor (count_failures lb agent) (count_failures la agent) ∧
      ((count_failures lb agent = 0 ∧ count_failures la agent = 0 ∧
          s = "No failures before or after patch.") ∨
        (0 < count_failures lb agent ∧ count_failures la agent = 0 ∧
          s = "All failures resolved (before: " ++ toString (count_failures lb agent)
            ++ ", after: 0).") ∨
        (count_failures lb agent = 0 ∧ 0 < count_failures la agent ∧
          s = "New failures introduced (before: 0, after: " ++ toString (count_failures la agent)
            ++ ").") ∨
        (0 < count_failures la agent ∧ count_failures la agent < count_failures lb agent ∧
          s = "Failures reduced (before: " ++ toString (count_failures lb agent)
            ++ ", after: " ++ toString (count_failures la agent) ++ ").") ∨
        (0 < count_failures lb agent ∧ count_failures la agent = count_failures lb agent ∧
          s = "No change in failures (before: " ++ toString (count_failures lb agent)
            ++ ", after: " ++ toString (count_failures la agent) ++ ").") ∨
        (0 < count_failures lb agent ∧ count_failures lb agent < count_failures la agent ∧
          s = "Failures increased (before: " ++ toString (count_failures lb agent)
            ++ ", after: " ++ toString (count_failures la agent) ++ ").")) := by
  intro lb la agent s hs
  unfold evaluate_patch_effectiveness at hs
  by_cases hmem : agent ∈ countedAgents lb ∪ countedAgents la
  · rw [if_pos hmem, Option.some.injEq] at hs
    subst hs
    constructor
    · rfl
    · set b := count_failures lb agent with hb
      set a := count_failures la agent with ha
      split_ifs with h1 h2 h3 h4 h5
      · exact Or.inl ⟨h1.1, h1.2, rfl⟩
      · exact Or.inr (Or.inl ⟨h2.1, h2.2, rfl⟩)
      · exact Or.inr (Or.inr (Or.inl ⟨h3.1, h3.2, rfl⟩))
      · refine Or.inr (Or.inr (Or.inr (Or.inl ⟨?_, h4, rfl⟩)))
        omega
      · refine Or.inr (Or.inr (Or.inr (Or.inr (Or.inl ⟨?_, h5, rfl⟩))))
        omega
      · refine Or.inr (Or.inr (Or.inr (Or.inr (Or.inr ⟨?_, ?_, rfl⟩))))
        · omega
        · omega
  · rw [if_neg hmem] at hs
    exact absurd hs (by simp)

/-- C4 witness: the amended claim evaluated at a one-failure before batch. -/
theorem C4_verdicts_witness :
    "All failures resolved (before: 1, after: 0)." =
      verdictFor (count_failures [eErrA] "a") (count_failures ([] : List LogEntry) "a") :=
  (C4_verdicts [eErrA] [] "a" "All failures resolved (before: 1, after: 0)." (by decide)).1

/-- C8: patch diff is idempotent — comparing a collection with itself
yields, for every agent in the result, empty `fully_fixed`, empty
`newly_introduced`, and `partially_fixed` exactly equal to that agent's
before-set of trimmed detector-positive message texts. -/
theorem C8_diff_idempotent :
    ∀ (X : List LogEntry) (agent : String) (r : PatchAgentResult),
      patch_propagation_analysis X X agent = some r →
      r.fully_fixed = ∅ ∧ r.newly_introduced = ∅ ∧
        r.partially_fixed = (extract_failures X agent).toFinset := by
  intro X agent r hr
  unfold patch_propagation_analysis at hr
  by_cases hmem : agent ∈ failureAgents X ∪ failureAgents X
  · rw [if_pos hmem, Option.some.injEq] at hr
    subst hr
    exact ⟨Finset.sdiff_self _, Finset.sdiff_self _, Finset.inter_self _⟩
  · rw [if_neg hmem] at hr
    exact absurd hr (by simp)

/-- C8 witness: the idempotence conclusions at a concrete one-entry
collection. -/
theorem C8_diff_idempotent_witness :
    (PatchAgentResult.mk ∅ {"error"} ∅).fully_fixed = ∅ ∧
    (PatchAgentResult.mk ∅ {"error"} ∅).newly_introduced = ∅ ∧
    (PatchAgentResult.mk ∅ {"error"} ∅).partially_fixed =
      (extract_failures [eErrA] "a").toFinset :=
  C8_diff_idempotent [eErrA] "a" (PatchAgentResult.mk ∅ {"error"} ∅) (by decide)

/-- C9 (counterexample): a malformed record can abort a batch.  Two
gate-passing entries whose `agent_id` key is missing make
`map_failure_propagation` hit the bare `log['agent_id']` subscript of
line 108, a `KeyError` (modelled as `none`), instead of the `"unknown"`
sentinel. -/
theorem C9_counterexample :
    map_failure_propagation [eNoAgent1, eNoAgent2] = none := by decide

/-- C9 (amended): on an empty batch every aggregate operation returns an
empty or absent result, and the grouping step, the patch-diff extraction
and the effectiveness count substitute the sentinels `"unknown"` /
`""` for missing fields; but the propagation mapper and the introducer
map (see the counterexample) subscript `agent_id` directly and abort on a
gate-passing entry that lacks it. -/
theorem C9_totality :
    group_failures_by_agent [] = [] ∧
    map_failure_propagation [] = some [] ∧
    show_failure_introducers [] = some [] ∧
    (∀ agent, patch_propagation_analysis [] [] agent = none) ∧
    (∀ agent, evaluate_patch_effectiveness [] [] agent = none) ∧
    (∀ agent, advanced_evaluation_report [] [] agent = none) ∧
    (∀ e : LogEntry, group_failures_by_agent [e] =
      if is_failure (e.message.getD "") then
        [(e.agent_id.getD "unknown", [(e, categorize (e.message.getD ""))])]
      else []) ∧
    (∀ e : LogEntry, extract_failures [e] (e.agent_id.getD "unknown") =
      if is_failure (strTrim (e.message.getD "")) then [strTrim (e.message.getD "")] else []) ∧
    (∀ e : LogEntry, count_failures [e] (e.agent_id.getD "unknown") =
      if is_failure4 (e.message.getD "") then 1 else 0) := by
  refine ⟨rfl, rfl, rfl, ?_, ?_, ?_, ?_, ?_, ?_⟩
  · intro agent
    simp [patch_propagation_analysis, failureAgents]
  · intro agent
    simp [evaluate_patch_effectiveness, countedAgents]
  · intro agent
    simp [advanced_evaluation_report, groupedAgents]
  · intro e
    by_cases hf : is_failure (e.message.getD "") = true <;>
      simp [group_failures_by_agent, groupStep, addToGroup, hf]
  · intro e
    by_cases hf : is_failure (strTrim (e.message.getD "")) = true <;>
      simp [extract_failures, hf]
  · intro e
    by_cases hf : is_failure4 (e.message.getD "") = true <;>
      simp [count_failures, hf]

theorem sortLogs_perm (logs : List LogEntry) : List.Perm (sortLogs logs) logs :=
  List.perm_insertionSort tsLe logs

theorem sortLogs_sorted (logs : List LogEntry) : (sortLogs logs).Pairwise tsLe := by
  haveI := tsLe_isTotal
  haveI := tsLe_isTrans
  exact List.sorted_insertionSort tsLe logs

theorem sortLogs_stable (logs : List LogEntry) (t : String) :
    (sortLogs logs).filter (fun e => tsKey e == t) = logs.filter (fun e => tsKey e == t) := by
  have hpw : (logs.filter (fun e => tsKey e == t)).Pairwise tsLe := by
    apply List.pairwise_of_forall_mem_list
    intro a ha b hb
    rw [List.mem_filter] at ha hb
    have hat : tsKey a = t := by simpa using ha.2
    have hbt : tsKey b = t := by simpa using hb.2
    unfold tsLe
    rw [hat, hbt]
    exact lexLe_refl _
  have hsub : List.Sublist (logs.filter (fun e => tsKey e == t)) (sortLogs logs) :=
    List.sublist_insertionSort hpw (List.filter_sublist logs)
  have hsub2 : List.Sublist (logs.filter (fun e => tsKey e == t))
      ((sortLogs logs).filter (fun e => tsKey e == t)) := by
    have h2 := hsub.filter (fun e => tsKey e == t)
    rwa [List.filter_filter, show (fun e => (tsKey e == t) && (tsKey e == t)) =
      (fun e => tsKey e == t) from by funext e; rw [Bool.and_self]] at h2
  have hlen : ((sortLogs logs).filter (fun e => tsKey e == t)).length =
      (logs.filter (fun e => tsKey e == t)).length :=
    ((sortLogs_perm logs).filter _).length_eq
  exact (hsub2.eq_of_length hlen.symm).symm

theorem mapPropagationAux_eq :
    ∀ (l : List LogEntry) (last : Option LogEntry),
      mapPropagationAux last l = adjacentFailureEdges (last.toList ++ l.filter propGate) := by
  intro l
  induction l with
  | nil => intro last; cases last <;> rfl
  | cons log rest ih =>
    intro last
    by_cases hf : is_failure4 (log.message.getD "") = true
    · cases last with
      | none =>
        have h1 : mapPropagationAux none (log :: rest) = mapPropagationAux (some log) rest := by
          simp only [mapPropagationAux]
          rw [if_pos hf]
        rw [h1, ih (some log), List.filter_cons, if_pos (by simpa [propGate] using hf)]
        rfl
      | some lf =>
        have h1 : mapPropagationAux (some lf) (log :: rest) =
            (do
              let la ← log.agent_id
              let lfa ← lf.agent_id
              if la ≠ lfa then do
                let ts ← log.timestamp
                let m ← log.message
                let tail ← mapPropagationAux (some log) rest
                pure (⟨lfa, la, ts, m⟩ :: tail)
              else
                mapPropagationAux (some log) rest) := by
          simp only [mapPropagationAux]
          rw [if_pos hf]
        rw [h1, List.filter_cons, if_pos (by simpa [propGate] using hf)]
        show _ = adjacentFailureEdges (lf :: log :: rest.filter propGate)
        simp only [adjacentFailureEdges]
        rw [ih (some log)]
        rfl
    · cases last with
      | none =>
        have h1 : mapPropagationAux none (log :: rest) = mapPropagationAux none rest := by
          simp only [mapPropagationAux]
          rw [if_neg hf]
        rw [h1, ih none, List.filter_cons, if_neg (by simpa [propGate] using hf)]
      | some lf =>
        have h1 : mapPropagationAux (some lf) (log :: rest) = mapPropagationAux (some lf) rest := by
          simp only [mapPropagationAux]
          rw [if_neg hf]
        rw [h1, ih (some lf), List.filter_cons, if_neg (by simpa [propGate] using hf)]

theorem adjacentFailureEdges_ne :
    ∀ (l : List LogEntry) (edges : List PropagationEdge),
      adjacentFailureEdges l = some edges →
      ∀ e ∈ edges, e.target_agent ≠ e.source_agent := by
  intro l
  induction l with
  | nil =>
    intro edges h e he
    simp only [adjacentFailureEdges, Option.some.injEq] at h
    subst h
    simp at he
  | cons a rest ih =>
    cases rest with
    | nil =>
      intro edges h e he
      simp only [adjacentFailureEdges, Option.some.injEq] at h
      subst h
      simp at he
    | cons b rest2 =>
      intro edges h e he
      simp only [adjacentFailureEdges] at h
      cases hba : b.agent_id with
      | none => rw [hba] at h; simp at h
      | some ba =>
        cases haa : a.agent_id with
        | none => rw [hba, haa] at h; simp at h
        | some aa =>
          rw [hba, haa] at h
          simp only [Option.bind_eq_bind, Option.some_bind] at h
          by_cases hne : ba ≠ aa
          · rw [if_pos hne] at h
            cases hts : b.timestamp with
            | none => rw [hts] at h; simp at h
            | some ts =>
              cases hm : b.message with
              | none => rw [hts, hm] at h; simp at h
              | some m =>
                rw [hts, hm] at h
                simp only [Option.bind_eq_bind, Option.some_bind] at h
                cases htail : adjacentFailureEdges (b :: rest2) with
                | none => rw [htail] at h; simp at h
                | some tail =>
                  rw [htail] at h
                  simp only [Option.bind_eq_bind, Option.some_bind, Option.pure_def,
                    Option.some.injEq] at h
                  subst h
                  rcases List.mem_cons.mp he with he | he
                  · subst he
                    simpa using hne
                  · exact ih tail htail e he
          · rw [if_neg hne] at h
            exact ih edges h e he

/-- C3 (counterexample): the state machine's gate is not the six-keyword
failure predicate.  In `[eErrA, eTimeoutB]` the second entry is a
detector-positive failure (`"timeout"`) from a different agent while
`last_failure` is the `"error"` entry, so the claim requires an edge
`a → b`; the code emits none, because its gate has only the four
substrings fail/error/exception/crash. -/
theorem C3_counterexample :
    is_failure (eTimeoutB.message.getD "") = true ∧
    eErrA.agent_id ≠ eTimeoutB.agent_id ∧
    is_failure4 (eErrA.message.getD "") = true ∧
    map_failure_propagation [eErrA, eTimeoutB] = some [] := by decide

/-- C3 (amended): with "failure entry" meaning the four-substring gate
(`propGate`), the claim holds: `map_failure_propagation` stably sorts by
the raw timestamp string (permutation + sortedness + ties keep input
order) and equals the one-edge-per-adjacent-pair characterisation
`adjacentFailureEdges` of the gate-filtered sorted stream — hence
consecutive same-agent failures emit no edge — and every emitted edge has
`target_agent ≠ source_agent`. -/
theorem C3_propagation :
    ∀ logs : List LogEntry,
      List.Perm (sortLogs logs) logs ∧
      (sortLogs logs).Pairwise tsLe ∧
      (∀ t : String, (sortLogs logs).filter (fun e => tsKey e == t) =
        logs.filter (fun e => tsKey e == t)) ∧
      map_failure_propagation logs = adjacentFailureEdges ((sortLogs logs).filter propGate) ∧
      (∀ edges : List PropagationEdge, map_failure_propagation logs = some edges →
        ∀ e ∈ edges, e.target_agent ≠ e.source_agent) := by
  intro logs
  have hmap : map_failure_propagation logs =
      adjacentFailureEdges ((sortLogs logs).filter propGate) := by
    unfold map_failure_propagation
    rw [mapPropagationAux_eq]
    rfl
  refine ⟨sortLogs_perm logs, sortLogs_sorted logs, sortLogs_stable logs, hmap, ?_⟩
  intro edges hedges
  rw [hmap] at hedges
  exact adjacentFailureEdges_ne _ edges hedges

/-- C3 witness: the invariant applied to a concrete two-agent batch whose
single edge goes `a → b`. -/
theorem C3_propagation_witness :
    (PropagationEdge.mk "a" "b" "t2" "crash!").target_agent ≠
      (PropagationEdge.mk "a" "b" "t2" "crash!").source_agent :=
  (C3_propagation [eErrA, eCrashB]).2.2.2.2 [PropagationEdge.mk "a" "b" "t2" "crash!"]
    (by decide) (PropagationEdge.mk "a" "b" "t2" "crash!") (by decide)

theorem any_fst_eq (seen : List (String × String)) (msg : String) :
    seen.any (fun p => p.1 = msg) = true ↔ msg ∈ seen.map Prod.fst := by
  simp only [List.any_eq_true, decide_eq_true_eq, List.mem_map]

theorem firstSeenFrom_nodup :
    ∀ (l acc : List String), acc.Nodup →
      (l.foldl (fun acc x => if x ∈ acc then acc else acc ++ [x]) acc).Nodup := by
  intro l
  induction l with
  | nil => intro acc h; simpa using h
  | cons x xs ih =>
    intro acc h
    simp only [List.foldl_cons]
    by_cases hx : x ∈ acc
    · rw [if_pos hx]
      exact ih acc h
    · rw [if_neg hx]
      apply ih
      rw [List.nodup_append]
      refine ⟨h, List.nodup_singleton x, ?_⟩
      intro a ha hax
      simp only [List.mem_singleton] at hax
      subst hax
      exact hx ha

theorem introducersAux_spec :
    ∀ (l : List LogEntry) (seen m : List (String × String)),
      introducersAux seen l = some m →
      m.map Prod.fst =
        ((l.filter introGate).map introKey).foldl
          (fun acc x => if x ∈ acc then acc else acc ++ [x]) (seen.map Prod.fst) ∧
      ∀ p : String × String, p ∈ m →
        p ∈ seen ∨ (p.1 ∉ seen.map Prod.fst ∧
          ∃ e, (l.filter introGate).find? (fun e => introKey e == p.1) = some e ∧
            e.agent_id = some p.2) := by
  intro l
  induction l with
  | nil =>
    intro seen m h
    simp only [introducersAux, Option.some.injEq] at h
    subst h
    exact ⟨by simp, fun p hp => Or.inl hp⟩
  | cons log rest ih =>
    intro seen m h
    have hgate : introGate log = is_failure (introKey log) := rfl
    by_cases hg : is_failure (introKey log) = true
    · by_cases hseen : introKey log ∈ seen.map Prod.fst
      · have hany : (seen.any (fun p => p.1 = introKey log)) = true :=
          (any_fst_eq seen (introKey log)).mpr hseen
        have hstep : introducersAux seen (log :: rest) = introducersAux seen rest := by
          simp only [introducersAux]
          rw [if_pos hg, if_pos hany]
        obtain ⟨h1, h2⟩ := ih seen m (hstep ▸ h)
        constructor
        · rw [h1, List.filter_cons, if_pos (hgate ▸ hg), List.map_cons, List.foldl_cons,
            if_pos hseen]
        · intro p hp
          rcases h2 p hp with hp' | ⟨hnot, e, hfind, hagent⟩
          · exact Or.inl hp'
          · refine Or.inr ⟨hnot, e, ?_, hagent⟩
            rw [List.filter_cons, if_pos (hgate ▸ hg),
              List.find?_cons_of_neg _ (by simp; intro hc; exact hnot (hc ▸ hseen)), hfind]
      · have hany : ¬ (seen.any (fun p => p.1 = introKey log)) = true := by
          rw [any_fst_eq]
          exact hseen
        cases hag : log.agent_id with
        | none =>
          have hnone : introducersAux seen (log :: rest) = none := by
            simp only [introducersAux]
            rw [if_pos hg, if_neg hany, hag]
            rfl
          rw [hnone] at h
          exact absurd h (by simp)
        | some a =>
          have hstep : introducersAux seen (log :: rest) =
              introducersAux (seen ++ [(introKey log, a)]) rest := by
            simp only [introducersAux]
            rw [if_pos hg, if_neg hany, hag]
            rfl
          obtain ⟨h1, h2⟩ := ih _ m (hstep ▸ h)
          constructor
          · rw [h1, List.filter_cons, if_pos (hgate ▸ hg), List.map_cons, List.foldl_cons,
              if_neg hseen, List.map_append]
            simp
          · intro p hp
            rcases h2 p hp with hp' | ⟨hnot, e, hfind, hagent⟩
            · rcases List.mem_append.mp hp' with h' | h'
              · exact Or.inl h'
              · simp only [List.mem_singleton] at h'
                subst h'
                refine Or.inr ⟨hseen, log, ?_, hag⟩
                rw [List.filter_cons, if_pos (hgate ▸ hg),
                  List.find?_cons_of_pos _ (by simp)]
            · have hne : p.1 ≠ introKey log := by
                intro hc
                apply hnot
                rw [List.map_append, List.mem_append]
                right
                simp [hc]
              refine Or.inr ⟨?_, e, ?_, hagent⟩
              · intro hc
                apply hnot
                rw [List.map_append, List.mem_append]
                exact Or.inl hc
              · rw [List.filter_cons, if_pos (hgate ▸ hg),
                  List.find?_cons_of_neg _ (by simp; exact fun hc => hne hc.symm), hfind]
    · have hstep : introducersAux seen (log :: rest) = introducersAux seen rest := by
        simp only [introducersAux]
        rw [if_neg hg]
      obtain ⟨h1, h2⟩ := ih seen m (hstep ▸ h)
      have hgf : introGate log = false := by
        rw [hgate]
        exact Bool.not_eq_true _ ▸ (by simpa using hg)
      constructor
      · rw [h1, List.filter_cons, if_neg (by simp [hgf])]
      · intro p hp
        rcases h2 p hp with hp' | ⟨hnot, e, hfind, hagent⟩
        · exact Or.inl hp'
        · refine Or.inr ⟨hnot, e, ?_, hagent⟩
          rw [List.filter_cons, if_neg (by simp [hgf]), hfind]

/-- C7: the introducer map, run over the timestamp-sorted stream,
maps each distinct trimmed failure message text (case-sensitively) to the
agent of its chronologically first occurrence only: its keys are
duplicate-free, ordered by first appearance among the gate-passing sorted
entries (`firstSeen`), and every recorded pair `(msg, a)` is exactly the
first gate-passing entry whose trimmed message is `msg`, whose agent is
`a` — so every later occurrence of the same text leaves the map
unchanged. -/
theorem C7_introducers :
    ∀ (logs : List LogEntry) (m : List (String × String)),
      show_failure_introducers logs = some m →
      (m.map Prod.fst).Nodup ∧
      m.map Prod.fst = firstSeen ((introEntries logs).map introKey) ∧
      (∀ msg a, (msg, a) ∈ m →
        ∃ e, (introEntries logs).find? (fun e => introKey e == msg) = some e ∧
          e.agent_id = some a) := by
  intro logs m h
  obtain ⟨h1, h2⟩ := introducersAux_spec (sortLogs logs) [] m h
  simp only [List.map_nil] at h1
  refine ⟨?_, ?_, ?_⟩
  · rw [h1]
    exact firstSeenFrom_nodup _ [] List.nodup_nil
  · exact h1
  · intro msg a hma
    rcases h2 (msg, a) hma with hc | ⟨_, e, hfind, hagent⟩
    · simp at hc
    · exact ⟨e, hfind, hagent⟩

/-- C7 witness: with two `"timeout"` entries from agents `A` then `B`,
the introducer of `"timeout"` is the first entry (agent `A`) only. -/
theorem C7_introducers_witness :
    ∃ e, (introEntries [eIntroA, eIntroB]).find? (fun e => introKey e == "timeout") = some e ∧
      e.agent_id = some "A" :=
  (C7_introducers [eIntroA, eIntroB] [("timeout", "A")] (by decide)).2.2 "timeout" "A" (by decide)

theorem foldl_maxStep_some :
    ∀ (l : List Nat) (x : Nat),
      l.foldl (fun o tv => match o with
        | none => some tv
        | some lf => if tv > lf then some tv else some lf) (some x) = some (l.foldl max x) := by
  intro l
  induction l with
  | nil => intro x; rfl
  | cons a as ih =>
    intro x
    simp only [List.foldl_cons]
    have h : (if a > x then some a else some x) = some (max x a) := by
      split_ifs with h' <;> [rw [Nat.max_eq_right (by omega)]; rw [Nat.max_eq_left (by omega)]]
    rw [h, ih]

theorem foldl_maxStep_none :
    ∀ l : List Nat,
      l.foldl (fun o tv => match o with
        | none => some tv
        | some lf => if tv > lf then some tv else some lf) none = l.max? := by
  intro l
  cases l with
  | nil => rfl
  | cons a as =>
    simp only [List.foldl_cons]
    rw [foldl_maxStep_some, List.max?_cons']

theorem foldl_minStep_some :
    ∀ (l : List Nat) (x : Nat),
      l.foldl (fun o tv => match o with
        | none => some tv
        | some fs => if tv < fs then some tv else some fs) (some x) = some (l.foldl min x) := by
  intro l
  induction l with
  | nil => intro x; rfl
  | cons a as ih =>
    intro x
    simp only [List.foldl_cons]
    have h : (if a < x then some a else some x) = some (min x a) := by
      split_ifs with h' <;> [rw [Nat.min_eq_right (by omega)]; rw [Nat.min_eq_left (by omega)]]
    rw [h, ih]

theorem foldl_minStep_none :
    ∀ l : List Nat,
      l.foldl (fun o tv => match o with
        | none => some tv
        | some fs => if tv < fs then some tv else some fs) none = l.min? := by
  intro l
  cases l with
  | nil => rfl
  | cons a as =>
    simp only [List.foldl_cons]
    rw [foldl_minStep_some, List.min?_cons']

theorem beforeFold_lastFail :
    ∀ (logs : List LogEntry) (acc : BeforeAcc),
      (logs.foldl beforeStep acc).lastFail =
        (failTimes logs).foldl (fun o tv => match o with
          | none => some tv
          | some lf => if tv > lf then some tv else some lf) acc.lastFail := by
  intro logs
  induction logs with
  | nil => intro acc; rfl
  | cons log rest ih =>
    intro acc
    simp only [List.foldl_cons]
    by_cases hf : is_failure4 (log.message.getD "") = true
    · cases hp : parse_time (log.timestamp.getD "") with
      | none =>
        rw [ih]
        have hstep : (beforeStep acc log).lastFail = acc.lastFail := by
          simp [beforeStep, hf, hp]
        rw [hstep]
        have hft : failTimes (log :: rest) = failTimes rest := by
          simp [failTimes, List.filterMap_cons, hf, hp]
        rw [hft]
      | some tv =>
        rw [ih]
        have hstep : (beforeStep acc log).lastFail =
            (match acc.lastFail with
              | none => some tv
              | some lf => if tv > lf then some tv else some lf) := by
          cases hacc : acc.lastFail <;> simp [beforeStep, hf, hp, hacc]
        rw [hstep]
        have hft : failTimes (log :: rest) = tv :: failTimes rest := by
          simp [failTimes, List.filterMap_cons, hf, hp]
        rw [hft, List.foldl_cons]
    · rw [show beforeStep acc log = acc from by simp [beforeStep, hf], ih]
      have hft : failTimes (log :: rest) = failTimes rest := by
        simp [failTimes, List.filterMap_cons, hf]
      rw [hft]

theorem afterFold_firstSuccess_none :
    ∀ (logs : List LogEntry) (acc : AfterAcc),
      (logs.foldl (afterStep none) acc).firstSuccess = acc.firstSuccess := by
  intro logs
  induction logs with
  | nil => intro acc; rfl
  | cons log rest ih =>
    intro acc
    simp only [List.foldl_cons]
    rw [ih]
    by_cases hf : is_failure4 (log.message.getD "") = true
    · simp [afterStep, hf]
    · cases hp : parse_time (log.timestamp.getD "") <;> simp [afterStep, hf, hp]

theorem afterFold_firstSuccess_some (lf : Nat) :
    ∀ (logs : List LogEntry) (acc : AfterAcc),
      (logs.foldl (afterStep (some lf)) acc).firstSuccess =
        (successTimes logs).foldl
          (fun o tv =>
            if (match o with
                | none => true
                | some fs => decide (tv < fs)) && decide (tv > lf) then some tv else o)
          acc.firstSuccess := by
  intro logs
  induction logs with
  | nil => intro acc; rfl
  | cons log rest ih =>
    intro acc
    simp only [List.foldl_cons]
    by_cases hf : is_failure4 (log.message.getD "") = true
    · rw [ih]
      have hstep : (afterStep (some lf) acc log).firstSuccess = acc.firstSuccess := by
        simp [afterStep, hf]
      rw [hstep]
      have hst : successTimes (log :: rest) = successTimes rest := by
        simp [successTimes, List.filterMap_cons, hf]
      rw [hst]
    · cases hp : parse_time (log.timestamp.getD "") with
      | none =>
        rw [ih]
        have hstep : (afterStep (some lf) acc log).firstSuccess = acc.firstSuccess := by
          simp [afterStep, hf, hp]
        rw [hstep]
        have hst : successTimes (log :: rest) = successTimes rest := by
          simp [successTimes, List.filterMap_cons, hf, hp]
        rw [hst]
      | some tv =>
        rw [ih]
        have hst : successTimes (log :: rest) = tv :: successTimes rest := by
          simp [successTimes, List.filterMap_cons, hf, hp]
        rw [hst, List.foldl_cons]
        have hstep : (afterStep (some lf) acc log).firstSuccess =
            (if (match acc.firstSuccess with
                | none => true
                | some fs => decide (tv < fs)) && decide (tv > lf) then some tv else
              acc.firstSuccess) := by
          by_cases hcond : ((match acc.firstSuccess with
              | none => true
              | some fs => decide (tv < fs)) && decide (tv > lf)) = true
          · rw [if_pos hcond]
            simp [afterStep, hf, hp, hcond]
          · rw [if_neg hcond]
            simp [afterStep, hf, hp, hcond]
        rw [hstep]

theorem foldl_qualified_min (lf : Nat) :
    ∀ (l : List Nat) (o : Option Nat),
      l.foldl (fun o tv =>
        if (match o with
            | none => true
            | some fs => decide (tv < fs)) && decide (tv > lf) then some tv else o) o =
      (l.filter (fun t => decide (lf < t))).foldl (fun o tv => match o with
        | none => some tv
        | some fs => if tv < fs then some tv else some fs) o := by
  intro l
  induction l with
  | nil => intro o; rfl
  | cons a as ih =>
    intro o
    simp only [List.foldl_cons, List.filter_cons]
    by_cases hlt : lf < a
    · have hstep : (if (match o with
          | none => true
          | some fs => decide (a < fs)) && decide (a > lf) then some a else o) =
          (match o with
            | none => some a
            | some fs => if a < fs then some a else some fs) := by
        cases o with
        | none =>
          show (if (true && decide (a > lf)) = true then some a else none) = some a
          rw [if_pos (show (true && decide (a > lf)) = true by simp [hlt])]
        | some fs =>
          show (if (decide (a < fs) && decide (a > lf)) = true then some a else some fs) =
            (if a < fs then some a else some fs)
          by_cases hafs : a < fs
          · rw [if_pos (show (decide (a < fs) && decide (a > lf)) = true by simp [hlt, hafs]),
              if_pos hafs]
          · rw [if_neg (show ¬ (decide (a < fs) && decide (a > lf)) = true by simp [hafs]),
              if_neg hafs]
      rw [hstep, show (decide (lf < a)) = true by simpa using hlt, if_pos rfl]
      simp only [List.foldl_cons]
      exact ih _
    · have hstep : (if (match o with
          | none => true
          | some fs => decide (a < fs)) && decide (a > lf) then some a else o) = o := by
        cases o with
        | none =>
          show (if (true && decide (a > lf)) = true then some a else none) = none
          rw [if_neg (show ¬ (true && decide (a > lf)) = true by simp [hlt])]
        | some fs =>
          show (if (decide (a < fs) && decide (a > lf)) = true then some a else some fs) = some fs
          rw [if_neg (show ¬ (decide (a < fs) && decide (a > lf)) = true by simp [hlt])]
      rw [hstep, show (decide (lf < a)) = false by simpa using hlt,
        if_neg (show ¬ (false = true) by simp)]
      exact ih o

/-- C5 (counterexample): the advanced report's failure/success split is
not the six-keyword detector.  With a before-failure at `00:00:00` and an
after-entry `"timeout"` at `00:05:00` — detector-positive, so under the
claim not a success and recovery should be absent — the code treats the
`"timeout"` entry as a success (its gate has only the four substrings)
and reports a recovery of 300 seconds. -/
theorem C5_counterexample :
    is_failure (eIsoTimeout.message.getD "") = true ∧
    (advanced_evaluation_report [eIsoFail] [eIsoTimeout] "a").map
      AdvancedAgentReport.time_to_recovery = some (some 300) := by decide

/-- C5 (amended): with the failure/success split taken by the
four-substring gate, the recovery computation is as claimed: unparsable
timestamps are absent (dropped by `parse_time` inside
`failTimes`/`successTimes`, never raising), `last_failure_time` is the
maximum parsed timestamp of the agent's gate-positive before entries,
`first_success_time` is the minimum parsed timestamp of the agent's
gate-negative after entries strictly exceeding it (and does strictly
exceed it, so the recovery duration is positive), `time_to_recovery` is
their difference when both exist and absent otherwise. -/
theorem C5_recovery :
    ∀ (lb la : List LogEntry) (agent : String),
      (beforeFold (agentLogs lb agent)).lastFail = (failTimes (agentLogs lb agent)).max? ∧
      ((beforeFold (agentLogs lb agent)).lastFail = none →
        (afterFold (agentLogs la agent) none).firstSuccess = none) ∧
      (∀ lf : Nat, (beforeFold (agentLogs lb agent)).lastFail = some lf →
        (afterFold (agentLogs la agent) (some lf)).firstSuccess =
          ((successTimes (agentLogs la agent)).filter (fun t => decide (lf < t))).min?) ∧
      (∀ lf fs : Nat, (afterFold (agentLogs la agent) (some lf)).firstSuccess = some fs →
        lf < fs ∧ 0 < fs - lf) ∧
      ((advanced_report_for lb la agent).time_to_recovery =
        match (beforeFold (agentLogs lb agent)).lastFail,
          (afterFold (agentLogs la agent)
            ((beforeFold (agentLogs lb agent)).lastFail)).firstSuccess with
        | some lf, some fs => some (fs - lf)
        | _, _ => none) := by
  intro lb la agent
  have hfs : ∀ lf : Nat, (afterFold (agentLogs la agent) (some lf)).firstSuccess =
      ((successTimes (agentLogs la agent)).filter (fun t => decide (lf < t))).min? := by
    intro lf
    unfold afterFold
    rw [afterFold_firstSuccess_some]
    rw [show (AfterAcc.mk [] ∅ none).firstSuccess = none from rfl]
    rw [foldl_qualified_min, foldl_minStep_none]
  refine ⟨?_, ?_, fun lf _ => hfs lf, ?_, ?_⟩
  · unfold beforeFold
    rw [beforeFold_lastFail]
    rw [show (BeforeAcc.mk [] ∅ none).lastFail = none from rfl]
    rw [foldl_maxStep_none]
  · intro _
    unfold afterFold
    rw [afterFold_firstSuccess_none]
  · intro lf fs h
    rw [hfs lf] at h
    have hmem := List.min?_mem (fun a b : Nat => by omega) h
    rw [List.mem_filter] at hmem
    have : lf < fs := by simpa using hmem.2
    omega
  · rfl

/-- C5 witness: the amended characterisation at a concrete pair with a
parsed 300-second recovery window. -/
theorem C5_recovery_witness :
    (afterFold (agentLogs [eIsoOk] "a") (some 63839750400)).firstSuccess =
      ((successTimes (agentLogs [eIsoOk] "a")).filter
        (fun t => decide (63839750400 < t))).min? :=
  (C5_recovery [eIsoFail] [eIsoOk] "a").2.2.1 63839750400 (by decide)
